import Mathlib

/-!
Verification of the Shelf collection manager (src/App.tsx, src/types.ts).

The TypeScript data model and the state-transition handlers of `App.tsx` are
embedded shallowly:

* a JavaScript `Record<string, T>` (string-keyed object) is embedded as an
  insertion-ordered association list whose keys are unique —`Object.values`
  enumerates values in insertion order, spreading `{ ...obj, [k]: v }` keeps
  the position of an existing key and appends a fresh one;
* dynamically typed JavaScript field values are embedded as the inductive
  `Value`; JavaScript number results are `Option ℚ`, `none` standing for `NaN`;
* `Array.prototype.sort` (ES2019+: stable, comparator values with `NaN`
  collapsed to `0` by `SortCompare`) is embedded as a stable insertion sort;
  for a consistent comparator the stable sorted permutation is unique, so any
  stable algorithm yields the same list.
-/

namespace Shelf

/-- Field types of `types.ts` (`FieldType`). -/
inductive FieldType where
  | text | long_text | rating | status | tags | url | date | image | toggle | select
deriving DecidableEq, Repr

/-- Dynamically typed JavaScript values stored in `Item.fieldValues`
(`Record<string, any>`).  `vnum` is a finite number, `vnan` is `NaN`. -/
inductive Value where
  | vstr (s : String)
  | vnum (q : ℚ)
  | vnan
  | vbool (b : Bool)
  | vundefined
deriving DecidableEq, Repr

/-- JavaScript truthiness of a `Value`. -/
def truthy : Value → Bool
  | .vstr s => s ≠ ""
  | .vnum q => q ≠ 0
  | .vnan => false
  | .vbool b => b
  | .vundefined => false

/-- JavaScript `a || b` (returns `a` when truthy, else `b`). -/
def jsOr (a b : Value) : Value := if truthy a then a else b

/-- Parse a list of decimal digit characters into a natural number. -/
def digitsToNat : List Char → Option ℕ
  | [] => none
  | l => l.foldl (fun acc c => match acc with
      | none => none
      | some n => if c.isDigit then some (n * 10 + (c.toNat - 48)) else none)
      (some 0)

/-- Numeric conversion of a string, as JavaScript `Number(s)` behaves on the
strings that occur here: the empty string converts to `0`, an optionally
signed decimal literal converts to its value, anything else is `NaN`. -/
def strToNum (s : String) : Option ℚ :=
  if s = "" then some 0
  else match s.toList with
    | '-' :: rest => (parseUnsigned rest).map (fun q => -q)
    | l => parseUnsigned l
where
  /-- digits, or digits '.' digits -/
  parseUnsigned (l : List Char) : Option ℚ :=
    match l.span (fun c => c ≠ '.') with
    | (intPart, []) => (digitsToNat intPart).map (fun n => (n : ℚ))
    | (intPart, _dot :: fracPart) =>
      match digitsToNat intPart, digitsToNat fracPart with
      | some n, some f => some ((n : ℚ) + (f : ℚ) / ((10 : ℚ) ^ fracPart.length))
      | _, _ => none

/-- JavaScript `Number(v)`; `none` is `NaN`. -/
def toNumber : Value → Option ℚ
  | .vstr s => strToNum s
  | .vnum q => some q
  | .vnan => none
  | .vbool b => some (if b then 1 else 0)
  | .vundefined => none

/-- JavaScript `String(v)`.  Numbers occurring in the claims are integers, so
integer formatting suffices; a non-integer rational is rendered as
numerator/denominator. -/
def jsToString : Value → String
  | .vstr s => s
  | .vnum q => if q.den = 1 then toString q.num else toString q.num ++ "/" ++ toString q.den
  | .vnan => "NaN"
  | .vbool b => if b then "true" else "false"
  | .vundefined => "undefined"

/-- `types.ts` `FieldDefinition`. -/
structure FieldDefinition where
  id : String
  name : String
  type : FieldType
  options : Option (List String) := none
deriving DecidableEq, Repr

/-- `types.ts` `Item`.  `fieldValues` is the insertion-ordered embedding of
`Record<string, any>`. -/
structure Item where
  id : String
  collectionId : String
  dateAdded : String
  isFavorite : Bool
  fieldValues : List (String × Value)
deriving DecidableEq, Repr

/-- `types.ts` `Collection`. -/
structure Collection where
  id : String
  name : String
  icon : String
  color : String
  description : Option String := none
  fields : List FieldDefinition
  itemIds : List String
deriving DecidableEq, Repr

/-- `types.ts` `AppState`.  `items` embeds the normalized
`Record<string, Item>` store as an insertion-ordered list. -/
structure AppState where
  collections : List Collection
  items : List Item
  darkMode : Bool
  sidebarOpen : Bool
deriving DecidableEq, Repr

/-- `i.fieldValues[fid]` — a missing key reads as `undefined`. -/
def valOf (i : Item) (fid : String) : Value :=
  match i.fieldValues.lookup fid with
  | some v => v
  | none => .vundefined

/-- `appState.collections.find(c => c.id === i.collectionId)`. -/
def colOf (cols : List Collection) (i : Item) : Option Collection :=
  cols.find? (fun c => c.id == i.collectionId)

/-- `{ ...prev.items, [item.id]: item }`: an existing key keeps its position
and has its value replaced, a fresh key is appended. -/
def upsert (items : List Item) (it : Item) : List Item :=
  if items.any (fun j => j.id == it.id) then
    items.map (fun j => if j.id == it.id then it else j)
  else items ++ [it]

/-- `handleSaveItem` of `App.tsx`: `isNew` is the falsiness of
`prev.items[item.id]` (stored items are objects, hence truthy whenever
present). -/
def handleSaveItem (s : AppState) (item : Item) : AppState :=
  let isNew := !(s.items.any (fun j => j.id == item.id))
  let updatedItems := upsert s.items item
  let updatedCollections :=
    if isNew then
      s.collections.map (fun c =>
        if c.id == item.collectionId then { c with itemIds := item.id :: c.itemIds } else c)
    else s.collections
  { s with items := updatedItems, collections := updatedCollections }

/-- `handleDeleteItem` of `App.tsx`: look the item up; absent key is a no-op;
otherwise delete the key and filter the id out of the owning collection's
`itemIds`. -/
def handleDeleteItem (s : AppState) (itemId : String) : AppState :=
  match s.items.find? (fun j => j.id == itemId) with
  | none => s
  | some item =>
    { s with
      items := s.items.filter (fun j => !(j.id == itemId)),
      collections := s.collections.map (fun c =>
        if c.id == item.collectionId
        then { c with itemIds := c.itemIds.filter (fun x => !(x == itemId)) }
        else c) }

/-- `handleDeleteCollection` of `App.tsx`: the keys of all items whose
`collectionId` matches are deleted from the store, and the collection is
filtered out. -/
def handleDeleteCollection (s : AppState) (cid : String) : AppState :=
  let deletedIds := (s.items.filter (fun it => it.collectionId == cid)).map (fun it => it.id)
  { s with
    collections := s.collections.filter (fun c => !(c.id == cid)),
    items := s.items.filter (fun it => !(deletedIds.contains it.id)) }

/-- `setActiveView(prev => prev === id ? 'all' : prev)` in
`handleDeleteCollection`. -/
def handleDeleteCollectionView (prevView cid : String) : String :=
  if prevView == cid then "all" else prevView

/-- The state initializer of `useStickyState`:
`stickyValue !== null ? JSON.parse(stickyValue) : defaultValue`.
`jsonParse` abstracts `JSON.parse`; `none` models the `SyntaxError` it throws
on invalid JSON, which this initializer does not catch, so the error
propagates (`Except.error`). -/
def useStickyStateLoad {α : Type} (jsonParse : String → Option α)
    (defaultValue : α) (stored : Option String) : Except String α :=
  match stored with
  | none => .ok defaultValue
  | some s =>
    match jsonParse s with
    | some v => .ok v
    | none => .error "SyntaxError: JSON.parse"

/-! ## View pipeline -/

/-- `types.ts` `SortOption`. -/
inductive SortOption where
  | date_desc | date_asc | title_asc | title_desc | rating_desc | rating_asc | status_asc
deriving DecidableEq, Repr

/-- `types.ts` `FilterOptions`. -/
structure FilterOptions where
  onlyHasRating : Bool
  statusValues : List String
deriving DecidableEq, Repr

/-- Does the character list `m` occur at the head of the first list? -/
def headMatches : List Char → List Char → Bool
  | _, [] => true
  | [], _ :: _ => false
  | a :: l, b :: m => a == b && headMatches l m

/-- Does `m` occur as a contiguous run inside the first list?
(JavaScript `String.prototype.includes` on code points.) -/
def listIncludes : List Char → List Char → Bool
  | [], m => m.isEmpty
  | a :: l, m => headMatches (a :: l) m || listIncludes l m

/-- `toLowerCase` on one character; the strings of this app are ASCII, so
the ASCII case mapping is the faithful fragment. -/
def lowerChar (c : Char) : Char :=
  if 65 ≤ c.toNat ∧ c.toNat ≤ 90 then Char.ofNat (c.toNat + 32) else c

/-- `s.toLowerCase()` on the character list. -/
def lowerList (l : List Char) : List Char := l.map lowerChar

/-- `hay.toLowerCase().includes(needle.toLowerCase())`. -/
def includesLower (hay needle : String) : Bool :=
  listIncludes (lowerList hay.toList) (lowerList needle.toList)

/-- JavaScript string `<` (code-unit lexicographic; code points and code
units agree on the strings of this app). -/
def listLtb : List Char → List Char → Bool
  | [], [] => false
  | [], _ :: _ => true
  | _ :: _, [] => false
  | a :: l, b :: m =>
    if a.toNat < b.toNat then true
    else if b.toNat < a.toNat then false
    else listLtb l m

/-- String `<` by code units. -/
def strLtb (x y : String) : Bool := listLtb x.toList y.toList

/-- String `≤` by code units — the order of the default `Array.sort()`
comparator on strings. -/
def strLeb (x y : String) : Bool := !(strLtb y x)

/-- Stage 1, view narrowing. -/
def viewStage (activeView : String) (items : List Item) : List Item :=
  if activeView == "favorites" then items.filter (fun i => i.isFavorite)
  else if activeView != "all" then items.filter (fun i => i.collectionId == activeView)
  else items

/-- Stage 2, search: `if (searchQuery)` guards the filter, so the empty
query is an identity; otherwise any `fieldValues` value, string-coerced and
lowercased, must contain the lowercased query. -/
def searchStage (q : String) (items : List Item) : List Item :=
  if q ≠ "" then
    items.filter (fun i =>
      (i.fieldValues.map Prod.snd).any (fun v => includesLower (jsToString v) q))
  else items

/-- `col?.fields.find(f => f.type === 'rating')`. -/
def ratingFieldOf (c : Collection) : Option FieldDefinition :=
  c.fields.find? (fun f => f.type == .rating)

/-- `col?.fields.find(f => f.type === 'status')`. -/
def statusFieldOf (c : Collection) : Option FieldDefinition :=
  c.fields.find? (fun f => f.type == .status)

/-- The `onlyHasRating` filter predicate:
`ratingField ? Number(i.fieldValues[ratingField.id] || 0) > 0 : false`
(`NaN > 0` is false). -/
def hasRatingPred (cols : List Collection) (i : Item) : Bool :=
  match colOf cols i with
  | none => false
  | some col =>
    match ratingFieldOf col with
    | none => false
    | some f =>
      match toNumber (jsOr (valOf i f.id) (.vnum 0)) with
      | some q => decide ((0 : ℚ) < q)
      | none => false

/-- The `statusValues` filter predicate:
`sf ? statusValues.includes(String(i.fieldValues[sf.id] || '')) : false`. -/
def statusPred (cols : List Collection) (sv : List String) (i : Item) : Bool :=
  match colOf cols i with
  | none => false
  | some col =>
    match statusFieldOf col with
    | none => false
    | some f => sv.contains (jsToString (jsOr (valOf i f.id) (.vstr "")))

/-- Stage 3, attribute filters, each applied only when active. -/
def attrStage (cols : List Collection) (fo : FilterOptions) (items : List Item) : List Item :=
  let items1 := if fo.onlyHasRating then items.filter (hasRatingPred cols) else items
  if fo.statusValues.length > 0 then items1.filter (statusPred cols fo.statusValues) else items1

/-- Comparator helper `getTitle`. -/
def getTitle (cols : List Collection) (itm : Item) : String :=
  match colOf cols itm with
  | none => ""
  | some col =>
    match (col.fields.find? (fun f => f.name == "Title")).orElse (fun _ => col.fields.head?) with
    | none => ""
    | some f => jsToString (jsOr (valOf itm f.id) (.vstr ""))

/-- Comparator helper `getRating`; the result is a JavaScript number,
`none` = `NaN`. -/
def getRating (cols : List Collection) (itm : Item) : Option ℚ :=
  match colOf cols itm with
  | none => some 0
  | some col =>
    match ratingFieldOf col with
    | none => some 0
    | some f => toNumber (jsOr (valOf itm f.id) (.vnum 0))

/-- Comparator helper `getStatus`. -/
def getStatus (cols : List Collection) (itm : Item) : String :=
  match colOf cols itm with
  | none => ""
  | some col =>
    match statusFieldOf col with
    | none => ""
    | some f => jsToString (jsOr (valOf itm f.id) (.vstr ""))


/-! ## Date parsing (`new Date(s).getTime()`) -/

/-- Leap year in the proleptic Gregorian calendar. -/
def isLeap (y : ℕ) : Bool := y % 4 == 0 && (y % 100 != 0 || y % 400 == 0)

/-- Length of month `m` (1-based) of year `y`. -/
def daysInMonth (y m : ℕ) : ℕ :=
  if m == 2 then (if isLeap y then 29 else 28)
  else if m == 4 || m == 6 || m == 9 || m == 11 then 30 else 31

/-- Days in the months before month `m` (1-based) of a non-leap year. -/
def cumDays (m : ℕ) : ℕ :=
  [0, 0, 31, 59, 90, 120, 151, 181, 212, 243, 273, 304, 334].getD m 0

/-- Days from 0000-01-01 to y-m-d (proleptic Gregorian), valid dates only. -/
def days0 (y m d : ℕ) : ℕ :=
  let leaps := if y = 0 then 0 else (y - 1) / 4 - (y - 1) / 100 + (y - 1) / 400 + 1
  365 * y + leaps + cumDays m + (if isLeap y && decide (m > 2) then 1 else 0) + (d - 1)

/-- Days from 0000-01-01 to the Unix epoch 1970-01-01. -/
def epochDays : ℕ := days0 1970 1 1

/-- Epoch milliseconds of a date-time with validated components, `none` when
any component is out of range (an invalid `Date`). -/
def civilMs (y mo da h mi se ms : ℕ) : Option ℤ :=
  if 1 ≤ mo ∧ mo ≤ 12 ∧ 1 ≤ da ∧ da ≤ daysInMonth y mo ∧ h ≤ 23 ∧ mi ≤ 59 ∧ se ≤ 59 then
    some (((days0 y mo da : ℤ) - (epochDays : ℤ)) * 86400000
          + (h : ℤ) * 3600000 + (mi : ℤ) * 60000 + (se : ℤ) * 1000 + (ms : ℤ))
  else none

/-- Decimal digit value of a character. -/
def dig (c : Char) : Option ℕ := if c.isDigit then some (c.toNat - 48) else none

/-- Two decimal digits. -/
def dig2 (a b : Char) : Option ℕ := do pure ((← dig a) * 10 + (← dig b))

/-- Three decimal digits. -/
def dig3 (a b c : Char) : Option ℕ := do
  pure ((← dig a) * 100 + (← dig b) * 10 + (← dig c))

/-- Four decimal digits. -/
def dig4 (a b c d : Char) : Option ℕ := do
  pure ((← dig a) * 1000 + (← dig b) * 100 + (← dig c) * 10 + (← dig d))

/-- `new Date(s).getTime()` on the ISO-8601 forms the app stores
("YYYY-MM-DD", "YYYY-MM-DDTHH:MM:SSZ", "YYYY-MM-DDTHH:MM:SS.cccZ"); every
other string is an invalid date: `getTime()` is `NaN`, embedded as `none`. -/
def dateMs (s : String) : Option ℤ :=
  match s.toList with
  | [y1, y2, y3, y4, '-', a1, a2, '-', b1, b2] => do
      civilMs (← dig4 y1 y2 y3 y4) (← dig2 a1 a2) (← dig2 b1 b2) 0 0 0 0
  | [y1, y2, y3, y4, '-', a1, a2, '-', b1, b2, 'T',
     h1, h2, ':', m1, m2, ':', s1, s2, 'Z'] => do
      civilMs (← dig4 y1 y2 y3 y4) (← dig2 a1 a2) (← dig2 b1 b2)
        (← dig2 h1 h2) (← dig2 m1 m2) (← dig2 s1 s2) 0
  | [y1, y2, y3, y4, '-', a1, a2, '-', b1, b2, 'T',
     h1, h2, ':', m1, m2, ':', s1, s2, '.', f1, f2, f3, 'Z'] => do
      civilMs (← dig4 y1 y2 y3 y4) (← dig2 a1 a2) (← dig2 b1 b2)
        (← dig2 h1 h2) (← dig2 m1 m2) (← dig2 s1 s2) (← dig3 f1 f2 f3)
  | _ => none

/-! ## Sorting -/

/-- `localeCompare`, approximated by code-point comparison (the claims never
depend on locale-specific collation differences). -/
def localeCompare (x y : String) : ℚ :=
  if strLtb x y then -1 else if strLtb y x then 1 else 0

/-- `getTime() - getTime()` on two date values: a subtraction involving an
invalid date is `NaN`, which ES `SortCompare` collapses to `0`. -/
def jsub (o1 o2 : Option ℤ) : ℚ :=
  match o1, o2 with
  | some x, some y => (x : ℚ) - (y : ℚ)
  | _, _ => 0

/-- Subtraction of two rating values: `NaN` collapsed to `0` likewise. -/
def jsubQ (o1 o2 : Option ℚ) : ℚ :=
  match o1, o2 with
  | some x, some y => x - y
  | _, _ => 0

/-- "`jsub o1 o2 ≤ 0`", written comparison-wise. -/
def jleb (o1 o2 : Option ℤ) : Bool :=
  match o1, o2 with
  | some x, some y => decide (x ≤ y)
  | _, _ => true

/-- "`jsubQ o1 o2 ≤ 0`", written comparison-wise. -/
def jlebQ (o1 o2 : Option ℚ) : Bool :=
  match o1, o2 with
  | some x, some y => decide (x ≤ y)
  | _, _ => true

/-- The comparator of the sort stage.  ES `SortCompare` replaces a `NaN`
comparator result by `+0`, so the `NaN`-producing subtractions (invalid
dates, `NaN` ratings) are collapsed to `0`. -/
def sortCompare (cols : List Collection) (so : SortOption) (a b : Item) : ℚ :=
  match so with
  | .date_asc => jsub (dateMs a.dateAdded) (dateMs b.dateAdded)
  | .date_desc => jsub (dateMs b.dateAdded) (dateMs a.dateAdded)
  | .title_asc => localeCompare (getTitle cols a) (getTitle cols b)
  | .title_desc => localeCompare (getTitle cols b) (getTitle cols a)
  | .rating_desc => jsubQ (getRating cols b) (getRating cols a)
  | .rating_asc => jsubQ (getRating cols a) (getRating cols b)
  | .status_asc => localeCompare (getStatus cols a) (getStatus cols b)

/-- Insert `a` into `l`, before the first element `b` with `le a b`. -/
def jsInsert {α : Type} (le : α → α → Bool) (a : α) : List α → List α
  | [] => [a]
  | b :: l => if le a b then a :: b :: l else b :: jsInsert le a l

/-- Stable sort (`Array.prototype.sort`, ES2019+): for a consistent
comparator every stable algorithm produces the same (unique) stable sorted
permutation, so a stable insertion sort is a faithful embedding. -/
def jsSort {α : Type} (le : α → α → Bool) : List α → List α
  | [] => []
  | a :: l => jsInsert le a (jsSort le l)

/-- The Boolean relation the sort stage orders by — "comparator value at
most 0".  It equals `decide (sortCompare cols so a b ≤ 0)` case by case
(proved in `sortLe_eq_sortCompare`); it is spelled without rational
subtraction so that concrete instances reduce inside the kernel. -/
def sortLe (cols : List Collection) (so : SortOption) (a b : Item) : Bool :=
  match so with
  | .date_asc => jleb (dateMs a.dateAdded) (dateMs b.dateAdded)
  | .date_desc => jleb (dateMs b.dateAdded) (dateMs a.dateAdded)
  | .title_asc =>
    strLtb (getTitle cols a) (getTitle cols b) || !(strLtb (getTitle cols b) (getTitle cols a))
  | .title_desc =>
    strLtb (getTitle cols b) (getTitle cols a) || !(strLtb (getTitle cols a) (getTitle cols b))
  | .rating_desc => jlebQ (getRating cols b) (getRating cols a)
  | .rating_asc => jlebQ (getRating cols a) (getRating cols b)
  | .status_asc =>
    strLtb (getStatus cols a) (getStatus cols b) || !(strLtb (getStatus cols b) (getStatus cols a))

/-- `jleb` is "`jsub` at most zero". -/
theorem jleb_eq (o1 o2 : Option ℤ) : jleb o1 o2 = decide (jsub o1 o2 ≤ 0) := by
  cases o1 <;> cases o2 <;> simp [jleb, jsub, sub_nonpos]

/-- `jlebQ` is "`jsubQ` at most zero". -/
theorem jlebQ_eq (o1 o2 : Option ℚ) : jlebQ o1 o2 = decide (jsubQ o1 o2 ≤ 0) := by
  cases o1 <;> cases o2 <;> simp [jlebQ, jsubQ, sub_nonpos]

/-- The disjunction used in `sortLe` is "`localeCompare` at most zero". -/
theorem strLeb_or_eq (x y : String) :
    (strLtb x y || !(strLtb y x)) = decide (localeCompare x y ≤ 0) := by
  unfold localeCompare
  by_cases h1 : strLtb x y <;> by_cases h2 : strLtb y x <;>
    simp [h1, h2]

/-- `sortLe` is exactly "the source comparator returns at most 0". -/
theorem sortLe_eq_sortCompare (cols : List Collection) (so : SortOption) (a b : Item) :
    sortLe cols so a b = decide (sortCompare cols so a b ≤ 0) := by
  cases so <;>
    simp only [sortLe, sortCompare, jleb_eq, jlebQ_eq, strLeb_or_eq]

/-- Stage 4, sort: elements are ordered by the comparator, `a` before `b`
when `sortCompare a b ≤ 0`. -/
def sortStage (cols : List Collection) (so : SortOption) (items : List Item) : List Item :=
  jsSort (sortLe cols so) items

/-- `filteredItems` of `App.tsx`: view narrowing, then search, then
attribute filters, then sort. -/
def filteredItems (s : AppState) (activeView q : String) (fo : FilterOptions)
    (so : SortOption) : List Item :=
  sortStage s.collections so
    (attrStage s.collections fo (searchStage q (viewStage activeView s.items)))

/-- One item's contribution to the status chip set of `availableStatuses`:
`if (sf && item.fieldValues[sf.id]) set.add(String(item.fieldValues[sf.id]))`. -/
def statusChip (cols : List Collection) (i : Item) : Option String :=
  match colOf cols i with
  | none => none
  | some col =>
    match statusFieldOf col with
    | none => none
    | some f =>
      if truthy (valOf i f.id) then some (jsToString (valOf i f.id)) else none

/-- `Set.add`: insertion-ordered, first occurrence kept. -/
def insertUniq (l : List String) (x : String) : List String :=
  if x ∈ l then l else l ++ [x]

/-- The `Set` accumulated over the items, as its insertion-ordered element
list. -/
def collectChips (cols : List Collection) (items : List Item) : List String :=
  (items.filterMap (statusChip cols)).foldl insertUniq []

/-- `availableStatuses` of `App.tsx`: chips collected from `filteredItems`
(the fully filtered and sorted list), then `Array.from(set).sort()`. -/
def availableStatuses (s : AppState) (activeView q : String) (fo : FilterOptions)
    (so : SortOption) : List String :=
  jsSort strLeb (collectChips s.collections (filteredItems s activeView q fo so))

/-- Modelled from the spec for comparison (claim C2): the available attribute
values derived from the view- and search-narrowed but *not yet
attribute-filtered* item set, deduplicated, sorted lexicographically. -/
def availableStatusesSpec (s : AppState) (activeView q : String) : List String :=
  jsSort strLeb (collectChips s.collections (searchStage q (viewStage activeView s.items)))


/-! ## Sample data for concrete witnesses -/

/-- Sample "Title" field. -/
def fldTitle : FieldDefinition := { id := "f1", name := "Title", type := .text }

/-- Sample rating field. -/
def fldRating : FieldDefinition := { id := "f2", name := "Rating", type := .rating }

/-- Sample status field. -/
def fldStatus : FieldDefinition :=
  { id := "f3", name := "Status", type := .status, options := some ["Watched", "To Watch"] }

/-- Sample director field. -/
def fldDirector : FieldDefinition := { id := "f4", name := "Director", type := .text }

/-- Sample collection. -/
def colFilms : Collection :=
  { id := "films", name := "Films", icon := "Film", color := "amber",
    fields := [fldTitle, fldRating, fldStatus, fldDirector], itemIds := ["b", "a"] }

/-- Sample item (created first). -/
def itemA : Item :=
  { id := "a", collectionId := "films", dateAdded := "2024-01-01T00:00:00Z", isFavorite := true,
    fieldValues := [("f1", .vstr "Interstellar"), ("f2", .vnum 5), ("f3", .vstr "Watched"),
                    ("f4", .vstr "Christopher Nolan")] }

/-- Sample item (created second). -/
def itemB : Item :=
  { id := "b", collectionId := "films", dateAdded := "2024-02-01T00:00:00Z", isFavorite := false,
    fieldValues := [("f1", .vstr "Past Lives"), ("f2", .vnum 4), ("f3", .vstr "To Watch"),
                    ("f4", .vstr "Celine Song")] }

/-- Sample app state whose store and `itemIds` are consistent. -/
def stFilms : AppState :=
  { collections := [colFilms], items := [itemA, itemB], darkMode := false, sidebarOpen := false }

/-! ## Helper lemmas -/

/-- Every element of `upsert items it` whose id is `it.id` is `it` itself. -/
theorem eq_of_mem_upsert {items : List Item} {it j : Item}
    (hj : j ∈ upsert items it) (hid : j.id = it.id) : j = it := by
  unfold upsert at hj
  by_cases h : items.any (fun j => j.id == it.id) = true
  · simp only [h, if_true, List.mem_map] at hj
    obtain ⟨a, _, rfl⟩ := hj
    by_cases ha : a.id == it.id
    · simp [ha]
    · simp only [ha, if_neg, Bool.false_eq_true, not_false_iff, if_false] at hid ⊢
      exact absurd hid (by simpa using ha)
  · simp only [h, if_false, Bool.false_eq_true, List.mem_append, List.mem_singleton] at hj
    rcases hj with hj | hj
    · have hall : ∀ x ∈ items, ¬(x.id == it.id) = true := by
        simpa [List.any_eq_true] using h
      exact absurd hid (by simpa using hall j hj)
    · exact hj

/-- After an upsert the key is present. -/
theorem any_upsert (items : List Item) (it : Item) :
    (upsert items it).any (fun j => j.id == it.id) = true := by
  unfold upsert
  by_cases h : items.any (fun j => j.id == it.id) = true
  · simp only [h, if_true, List.any_eq_true, List.mem_map]
    rcases List.any_eq_true.mp h with ⟨a, ha, hid⟩
    exact ⟨it, ⟨a, ha, by simp [hid]⟩, by simp⟩
  · simp [h]

/-! ## Claims -/

/-- C1 (code bug evidence): the `useStickyState` initializer calls
`JSON.parse` with no `try`/`catch`, so a present-but-malformed stored string
(for example `"\x7b"`, on which `JSON.parse` throws a `SyntaxError`,
modelled by the parse function returning `none` there) makes the load
propagate the parse error instead of yielding the seed state. -/
theorem c1_malformed_load_propagates_error : ∀ seed : AppState,
    useStickyStateLoad (fun _ => none) seed (some "\x7b") = .error "SyntaxError: JSON.parse"
    ∧ useStickyStateLoad (fun _ => none) seed (some "\x7b") ≠ .ok seed := by
  intro seed
  exact ⟨rfl, by simp [useStickyStateLoad]⟩

/-- C7: saving the very same item value twice yields the same state as
saving it once; the second save is an in-place replacement that does not
touch `itemIds`. -/
theorem c7_saveItem_idempotent (s : AppState) (it : Item) :
    handleSaveItem (handleSaveItem s it) it = handleSaveItem s it := by
  have hany := any_upsert s.items it
  have hmap : (upsert s.items it).map (fun j => if j.id == it.id then it else j)
      = upsert s.items it := by
    have hcg := List.map_congr_left (l := upsert s.items it)
      (f := fun j => if j.id == it.id then it else j) (g := id) ?_
    · simpa using hcg
    · intro a ha
      by_cases h : a.id == it.id
      · simp only [h, if_true, id_eq]
        exact (eq_of_mem_upsert ha (by simpa using h)).symm
      · simp [h]
  have hup : upsert (upsert s.items it) it = upsert s.items it := by
    conv_lhs => rw [upsert]
    rw [hany, if_pos rfl, hmap]
  show { (handleSaveItem s it) with
      items := upsert (handleSaveItem s it).items it,
      collections :=
        if !((handleSaveItem s it).items.any (fun j => j.id == it.id)) then
          (handleSaveItem s it).collections.map (fun c =>
            if c.id == it.collectionId then { c with itemIds := it.id :: c.itemIds } else c)
        else (handleSaveItem s it).collections } = handleSaveItem s it
  have hitems : (handleSaveItem s it).items = upsert s.items it := rfl
  rw [hitems, hup, hany]
  rw [← hitems]
  simp

/-- C10: when the saved item's id is already a key of the store, `saveItem`
is an edit: the collections (hence every `itemIds`) are left unchanged, even
if the saved item's `collectionId` differs from the stored one. -/
theorem c10_edit_preserves_collections (s : AppState) (it : Item)
    (h : it.id ∈ s.items.map Item.id) :
    (handleSaveItem s it).collections = s.collections := by
  have hany : s.items.any (fun j => j.id == it.id) = true := by
    rcases List.mem_map.mp h with ⟨a, ha, hid⟩
    exact List.any_eq_true.mpr ⟨a, ha, by simp [hid]⟩
  unfold handleSaveItem
  simp [hany]

/-- C10 witness: editing item "a" to point at a different collection leaves
the collections list (with its `itemIds`) untouched. -/
theorem c10_witness :
    (handleSaveItem stFilms
      { itemA with collectionId := "books" }).collections = stFilms.collections :=
  c10_edit_preserves_collections stFilms { itemA with collectionId := "books" } (by decide)

/-- C9: the search stage with the empty query is the identity, and with a
non-empty query keeps exactly the items some string-coerced field value of
which contains the lowercased query case-insensitively. -/
theorem c9_search_stage (q : String) (items : List Item) :
    searchStage "" items = items ∧
    (q ≠ "" → ∀ i, i ∈ searchStage q items ↔
      i ∈ items ∧ ∃ v ∈ i.fieldValues.map Prod.snd,
        includesLower (jsToString v) q = true) := by
  constructor
  · simp [searchStage]
  · intro hq i
    simp [searchStage, hq, List.mem_filter, List.any_eq_true]


/-- C9 witness: the spec scenario — query "nolan" matches the item whose
Director field holds "Christopher Nolan" and not the other; the empty query
is an identity. -/
theorem c9_witness :
    searchStage "" [itemA, itemB] = [itemA, itemB]
    ∧ itemA ∈ searchStage "nolan" [itemA, itemB]
    ∧ itemB ∉ searchStage "nolan" [itemA, itemB] := by
  have h := c9_search_stage "nolan" [itemA, itemB]
  refine ⟨h.1, (h.2 (by decide) itemA).mpr ⟨by decide, by decide⟩, fun hm => ?_⟩
  exact absurd ((h.2 (by decide) itemB).mp hm).2 (by decide)

/-- C4: deleting a collection removes exactly that collection from the
collection list, removes exactly the items whose `collectionId` is the
deleted id from the store (no such item survives, items of other collections
are untouched), and the active view falls back to "all" exactly when it was
the deleted collection.  The store's keys are unique (`hnd`), as they are
for any JavaScript object. -/
theorem c4_deleteCollection (s : AppState) (cid view : String)
    (hnd : (s.items.map Item.id).Nodup) :
    (handleDeleteCollection s cid).collections = s.collections.filter (fun c => !(c.id == cid))
    ∧ (handleDeleteCollection s cid).items = s.items.filter (fun it => !(it.collectionId == cid))
    ∧ handleDeleteCollectionView view cid = (if view = cid then "all" else view) := by
  refine ⟨rfl, ?_, ?_⟩
  · show s.items.filter
        (fun it => !(((s.items.filter (fun j => j.collectionId == cid)).map Item.id).contains it.id))
        = s.items.filter (fun it => !(it.collectionId == cid))
    apply List.filter_congr
    intro x hx
    have hiff : ((s.items.filter (fun j => j.collectionId == cid)).map Item.id).contains x.id = true
        ↔ (x.collectionId == cid) = true := by
      rw [List.elem_iff]
      constructor
      · intro hmemb
        rcases List.mem_map.mp hmemb with ⟨j, hj, hjid⟩
        rcases List.mem_filter.mp hj with ⟨hjmem, hjc⟩
        have : j = x := List.inj_on_of_nodup_map hnd hjmem hx hjid
        subst this
        exact hjc
      · intro hc
        exact List.mem_map_of_mem Item.id (List.mem_filter.mpr ⟨hx, hc⟩)
    cases hcontains : ((s.items.filter (fun j => j.collectionId == cid)).map Item.id).contains x.id
    · cases hcol : (x.collectionId == cid)
      · rfl
      · exact absurd (hiff.mpr hcol) (by rw [hcontains]; exact Bool.false_ne_true)
    · rw [hiff.mp hcontains]
  · by_cases h : view = cid <;> simp [handleDeleteCollectionView, h]

/-- C4 witness: deleting "films" from the sample state removes the
collection, removes both of its items, and resets the active view. -/
theorem c4_witness :
    (handleDeleteCollection stFilms "films").collections
        = stFilms.collections.filter (fun c => !(c.id == "films"))
    ∧ (handleDeleteCollection stFilms "films").items
        = stFilms.items.filter (fun it => !(it.collectionId == "films"))
    ∧ handleDeleteCollectionView "films" "films" = (if "films" = "films" then "all" else "films") :=
  c4_deleteCollection stFilms "films" "films" (by decide)

/-- C5: deleting an absent item id is a no-op returning the state unchanged;
deleting a present id removes that item from the store (and nothing else)
and removes the id from its owning collection's `itemIds`, leaving the other
collections as they were. -/
theorem c5_deleteItem (s : AppState) (idv : String) :
    (idv ∉ s.items.map Item.id → handleDeleteItem s idv = s)
    ∧ (∀ it ∈ s.items, it.id = idv → (s.items.map Item.id).Nodup →
        (∀ j ∈ (handleDeleteItem s idv).items, j.id ≠ idv)
        ∧ (∀ j ∈ s.items, j.id ≠ idv → j ∈ (handleDeleteItem s idv).items)
        ∧ (∀ c ∈ s.collections, c.id = it.collectionId →
            { c with itemIds := c.itemIds.filter (fun x => !(x == idv)) }
              ∈ (handleDeleteItem s idv).collections)
        ∧ (∀ c ∈ s.collections, c.id ≠ it.collectionId →
            c ∈ (handleDeleteItem s idv).collections)) := by
  constructor
  · intro h
    have hf : s.items.find? (fun j => j.id == idv) = none := by
      rw [List.find?_eq_none]
      intro x hx
      simp only [beq_iff_eq]
      intro he
      exact h (he ▸ List.mem_map_of_mem Item.id hx)
    unfold handleDeleteItem
    rw [hf]
  · intro it hmem hid hnd
    obtain ⟨it0, hf⟩ : ∃ it0, s.items.find? (fun j => j.id == idv) = some it0 := by
      cases hcase : s.items.find? (fun j => j.id == idv) with
      | some it0 => exact ⟨it0, rfl⟩
      | none => exact absurd (List.find?_eq_none.mp hcase it hmem) (by simp [hid])
    have h0mem := List.mem_of_find?_eq_some hf
    have h0id : it0.id = idv := by simpa using List.find?_some hf
    have h00 : it0 = it := List.inj_on_of_nodup_map hnd h0mem hmem (by rw [h0id, hid])
    subst h00
    unfold handleDeleteItem
    rw [hf]
    refine ⟨?_, ?_, ?_, ?_⟩
    · intro j hj
      have := (List.mem_filter.mp hj).2
      simpa using this
    · intro j hj hne
      exact List.mem_filter.mpr ⟨hj, by simpa using hne⟩
    · intro c hc hcc
      have hfc : (fun c => if c.id == it0.collectionId
            then { c with itemIds := c.itemIds.filter (fun x => !(x == idv)) } else c) c
          = { c with itemIds := c.itemIds.filter (fun x => !(x == idv)) } := by
        simp [hcc]
      exact hfc ▸ List.mem_map_of_mem _ hc
    · intro c hc hcc
      have hfc : (fun c => if c.id == it0.collectionId
            then { c with itemIds := c.itemIds.filter (fun x => !(x == idv)) } else c) c = c := by
        simp [hcc]
      exact hfc ▸ List.mem_map_of_mem _ hc

/-- C5 witness: deleting the absent id "zzz" is a no-op on the sample state,
and deleting the present id "a" removes item "a" from the store, keeps item
"b", and yields the collection with "a" filtered out of its `itemIds`. -/
theorem c5_witness :
    handleDeleteItem stFilms "zzz" = stFilms
    ∧ (∀ j ∈ (handleDeleteItem stFilms "a").items, j.id ≠ "a")
    ∧ itemB ∈ (handleDeleteItem stFilms "a").items
    ∧ { colFilms with itemIds := colFilms.itemIds.filter (fun x => !(x == "a")) }
        ∈ (handleDeleteItem stFilms "a").collections := by
  have h1 := (c5_deleteItem stFilms "zzz").1 (by decide)
  have h2 := (c5_deleteItem stFilms "a").2 itemA (by decide) (by decide) (by decide)
  exact ⟨h1, h2.1, h2.2.1 itemB (by decide) (by decide), h2.2.2.1 colFilms (by decide) (by decide)⟩


/-- Sample item whose rating field holds the truthy non-numeric string
"abc". -/
def itemBadRating : Item :=
  { id := "x", collectionId := "films", dateAdded := "2024-03-01T00:00:00Z", isFavorite := false,
    fieldValues := [("f1", .vstr "Tenet"), ("f2", .vstr "abc")] }

/-- Sample item with no stored value for the rating field. -/
def itemNoRating : Item :=
  { id := "y", collectionId := "films", dateAdded := "2024-03-02T00:00:00Z", isFavorite := false,
    fieldValues := [("f1", .vstr "Dune")] }

/-- C6 counterexample: on an item whose rating field stores the truthy
non-numeric string "abc", the numeric coercion `getRating` yields `NaN`
(`none`) — `Number("abc")` — and not `0` as the claim states
(`"abc" || 0` keeps `"abc"` because a non-empty string is truthy). -/
theorem c6_counterexample :
    getRating [colFilms] itemBadRating = none
    ∧ getRating [colFilms] itemBadRating ≠ some 0 := by
  refine ⟨by decide, by decide⟩

/-- C6 amended: the rating coercion is total (always yields a number or
`NaN`, never throws), yields `0` whenever the stored value is absent or
falsy, yields `NaN` — not `0` — for a truthy non-numeric string, and the
has-rating filter treats a `NaN` rating exactly like an absent one
(`NaN > 0` is false, the item never passes). -/
theorem c6_rating_coercion (cols : List Collection) (itm : Item) :
    (getRating cols itm = none → hasRatingPred cols itm = false)
    ∧ (∀ col f, colOf cols itm = some col → ratingFieldOf col = some f →
        truthy (valOf itm f.id) = false → getRating cols itm = some 0) := by
  constructor
  · intro h
    unfold getRating at h
    cases hcol : colOf cols itm with
    | none => simp [hasRatingPred, hcol]
    | some col =>
      simp only [hcol] at h
      cases hrf : ratingFieldOf col with
      | none => simp [hasRatingPred, hcol, hrf]
      | some f =>
        simp only [hrf] at h
        simp [hasRatingPred, hcol, hrf, h]
  · intro col f hcol hrf htr
    simp [getRating, hcol, hrf, jsOr, htr, toNumber]

/-- C6 witness: the has-rating filter excludes the item with the `NaN`
rating, and an item with no stored rating value coerces to `0`. -/
theorem c6_witness :
    hasRatingPred [colFilms] itemBadRating = false
    ∧ getRating [colFilms] itemNoRating = some 0 :=
  ⟨(c6_rating_coercion [colFilms] itemBadRating).1 (by decide),
   (c6_rating_coercion [colFilms] itemNoRating).2 colFilms fldRating
     (by decide) (by decide) (by decide)⟩


/-! ## Sorting theory -/

/-- Membership in `jsInsert`. -/
theorem mem_jsInsert {α : Type} {le : α → α → Bool} {a x : α} {l : List α} :
    x ∈ jsInsert le a l ↔ x = a ∨ x ∈ l := by
  induction l with
  | nil => simp [jsInsert]
  | cons b t ih =>
    by_cases h : le a b = true
    · simp [jsInsert, h]
    · simp only [jsInsert, h, if_false, Bool.false_eq_true, List.mem_cons, ih]
      tauto

/-- `jsInsert` is a permutation of consing. -/
theorem jsInsert_perm {α : Type} (le : α → α → Bool) (a : α) (l : List α) :
    (jsInsert le a l).Perm (a :: l) := by
  induction l with
  | nil => simp [jsInsert]
  | cons b t ih =>
    by_cases h : le a b = true
    · simp [jsInsert, h]
    · simp only [jsInsert, h, if_false, Bool.false_eq_true]
      exact (ih.cons b).trans (List.Perm.swap a b t)

/-- `jsSort` is a permutation of its input. -/
theorem jsSort_perm {α : Type} (le : α → α → Bool) (l : List α) :
    (jsSort le l).Perm l := by
  induction l with
  | nil => exact List.Perm.refl []
  | cons a t ih => exact (jsInsert_perm le a (jsSort le t)).trans (ih.cons a)

/-- `jsInsert` into a sorted list is sorted, for a comparator total and
transitive on the elements involved. -/
theorem pairwise_jsInsert {α : Type} {le : α → α → Bool} {a : α} : ∀ {l : List α},
    (∀ x ∈ a :: l, ∀ y ∈ a :: l, le x y = true ∨ le y x = true) →
    (∀ x ∈ a :: l, ∀ y ∈ a :: l, ∀ z ∈ a :: l,
      le x y = true → le y z = true → le x z = true) →
    l.Pairwise (fun x y => le x y = true) →
    (jsInsert le a l).Pairwise (fun x y => le x y = true)
  | [], _, _, _ => by simp [jsInsert]
  | b :: t, htot, htr, hl => by
    rcases List.pairwise_cons.mp hl with ⟨hbt, ht⟩
    by_cases h : le a b = true
    · simp only [jsInsert, h, if_true]
      refine List.pairwise_cons.mpr ⟨?_, hl⟩
      intro y hy
      rcases List.mem_cons.mp hy with rfl | hy
      · exact h
      · exact htr a (by simp) b (by simp) y (by simp [hy]) h (hbt y hy)
    · simp only [jsInsert, h, if_false, Bool.false_eq_true]
      refine List.pairwise_cons.mpr ⟨?_, ?_⟩
      · intro y hy
        rcases mem_jsInsert.mp hy with rfl | hy
        · rcases htot y (by simp) b (by simp) with hab | hba
          · exact absurd hab h
          · exact hba
        · exact hbt y hy
      · refine pairwise_jsInsert ?_ ?_ ht
        · intro x hx y hy
          have hx2 : x ∈ a :: b :: t := by
            rcases List.mem_cons.mp hx with rfl | hx <;> simp [hx]
          have hy2 : y ∈ a :: b :: t := by
            rcases List.mem_cons.mp hy with rfl | hy <;> simp [hy]
          exact htot x hx2 y hy2
        · intro x hx y hy z hz
          have hx2 : x ∈ a :: b :: t := by
            rcases List.mem_cons.mp hx with rfl | hx <;> simp [hx]
          have hy2 : y ∈ a :: b :: t := by
            rcases List.mem_cons.mp hy with rfl | hy <;> simp [hy]
          have hz2 : z ∈ a :: b :: t := by
            rcases List.mem_cons.mp hz with rfl | hz <;> simp [hz]
          exact htr x hx2 y hy2 z hz2

/-- `jsSort` sorts, for a comparator total and transitive on the list. -/
theorem pairwise_jsSort {α : Type} {le : α → α → Bool} : ∀ {l : List α},
    (∀ x ∈ l, ∀ y ∈ l, le x y = true ∨ le y x = true) →
    (∀ x ∈ l, ∀ y ∈ l, ∀ z ∈ l, le x y = true → le y z = true → le x z = true) →
    (jsSort le l).Pairwise (fun x y => le x y = true)
  | [], _, _ => by simp [jsSort]
  | a :: t, htot, htr => by
    have hsub : ∀ x ∈ a :: jsSort le t, x ∈ a :: t := by
      intro x hx
      rcases List.mem_cons.mp hx with rfl | hx
      · simp
      · exact List.mem_cons_of_mem a ((jsSort_perm le t).subset hx)
    refine pairwise_jsInsert ?_ ?_ ?_
    · intro x hx y hy
      exact htot x (hsub x hx) y (hsub y hy)
    · intro x hx y hy z hz
      exact htr x (hsub x hx) y (hsub y hy) z (hsub z hz)
    · refine pairwise_jsSort ?_ ?_
      · intro x hx y hy
        exact htot x (List.mem_cons_of_mem a hx) y (List.mem_cons_of_mem a hy)
      · intro x hx y hy z hz
        exact htr x (List.mem_cons_of_mem a hx) y (List.mem_cons_of_mem a hy)
          z (List.mem_cons_of_mem a hz)

/-- `jleb` is total. -/
theorem jleb_total (o1 o2 : Option ℤ) : jleb o1 o2 = true ∨ jleb o2 o1 = true := by
  cases o1 with
  | none => cases o2 <;> simp [jleb]
  | some x =>
    cases o2 with
    | none => simp [jleb]
    | some y =>
      simpa [jleb] using le_total x y

/-- The strict "later instant" relation on items used to pin down the
descending date order. -/
def dateGt (a b : Item) : Prop :=
  ∃ x y, dateMs a.dateAdded = some x ∧ dateMs b.dateAdded = some y ∧ y < x

/-- `dateGt` is (vacuously) antisymmetric. -/
theorem dateGt_antisymm : ∀ a b : Item, dateGt a b → dateGt b a → a = b := by
  intro a b hab hba
  obtain ⟨x, y, hax, hby, hyx⟩ := hab
  obtain ⟨x2, y2, hbx2, hay2, hyx2⟩ := hba
  rw [hax] at hay2
  rw [hby] at hbx2
  cases Option.some_inj.mp hay2
  cases Option.some_inj.mp hbx2
  exact absurd hyx (not_lt_of_lt hyx2)

/-- C8 (amended): on a set of items all of whose `dateAdded` strings parse
to valid instants, pairwise distinct as instants, sorting by `date_desc` is
exactly the reverse of sorting by `date_asc`. -/
theorem c8_date_sort_reversal (cols : List Collection) (items : List Item)
    (hsome : ∀ i ∈ items, (dateMs i.dateAdded).isSome = true)
    (hnd : (items.map (fun i => dateMs i.dateAdded)).Nodup) :
    sortStage cols .date_desc items = (sortStage cols .date_asc items).reverse := by
  classical
  haveI : IsAntisymm Item dateGt := ⟨dateGt_antisymm⟩
  have hDperm : (sortStage cols .date_desc items).Perm items := jsSort_perm _ _
  have hAperm : (sortStage cols .date_asc items).Perm items := jsSort_perm _ _
  have hDsome : ∀ i ∈ sortStage cols .date_desc items, (dateMs i.dateAdded).isSome = true :=
    fun i hi => hsome i (hDperm.subset hi)
  have hAsome : ∀ i ∈ sortStage cols .date_asc items, (dateMs i.dateAdded).isSome = true :=
    fun i hi => hsome i (hAperm.subset hi)
  have hDmapnd : ((sortStage cols .date_desc items).map (fun i => dateMs i.dateAdded)).Nodup :=
    ((hDperm.map (fun i => dateMs i.dateAdded)).symm.nodup) hnd
  have hAmapnd : ((sortStage cols .date_asc items).map (fun i => dateMs i.dateAdded)).Nodup :=
    ((hAperm.map (fun i => dateMs i.dateAdded)).symm.nodup) hnd
  have hDne : (sortStage cols .date_desc items).Pairwise
      (fun a b => dateMs a.dateAdded ≠ dateMs b.dateAdded) :=
    List.pairwise_map.mp hDmapnd
  have hAne : (sortStage cols .date_asc items).Pairwise
      (fun a b => dateMs a.dateAdded ≠ dateMs b.dateAdded) :=
    List.pairwise_map.mp hAmapnd
  have hDle : (sortStage cols .date_desc items).Pairwise
      (fun a b => sortLe cols .date_desc a b = true) := by
    refine pairwise_jsSort ?_ ?_
    · intro x _ y _
      exact jleb_total (dateMs y.dateAdded) (dateMs x.dateAdded)
    · intro x hx y hy z hz h1 h2
      obtain ⟨kx, hkx⟩ := Option.isSome_iff_exists.mp (hsome x hx)
      obtain ⟨ky, hky⟩ := Option.isSome_iff_exists.mp (hsome y hy)
      obtain ⟨kz, hkz⟩ := Option.isSome_iff_exists.mp (hsome z hz)
      simp only [sortLe] at h1 h2 ⊢
      rw [hkx, hky] at h1
      rw [hky, hkz] at h2
      rw [hkx, hkz]
      simp only [jleb, decide_eq_true_eq] at h1 h2 ⊢
      exact le_trans h2 h1
  have hAle : (sortStage cols .date_asc items).Pairwise
      (fun a b => sortLe cols .date_asc a b = true) := by
    refine pairwise_jsSort ?_ ?_
    · intro x _ y _
      exact jleb_total (dateMs x.dateAdded) (dateMs y.dateAdded)
    · intro x hx y hy z hz h1 h2
      obtain ⟨kx, hkx⟩ := Option.isSome_iff_exists.mp (hsome x hx)
      obtain ⟨ky, hky⟩ := Option.isSome_iff_exists.mp (hsome y hy)
      obtain ⟨kz, hkz⟩ := Option.isSome_iff_exists.mp (hsome z hz)
      simp only [sortLe] at h1 h2 ⊢
      rw [hkx, hky] at h1
      rw [hky, hkz] at h2
      rw [hkx, hkz]
      simp only [jleb, decide_eq_true_eq] at h1 h2 ⊢
      exact le_trans h1 h2
  have hDr : (sortStage cols .date_desc items).Pairwise dateGt := by
    refine (hDle.and hDne).imp_of_mem ?_
    intro a b ha hb hab
    obtain ⟨ka, hka⟩ := Option.isSome_iff_exists.mp (hDsome a ha)
    obtain ⟨kb, hkb⟩ := Option.isSome_iff_exists.mp (hDsome b hb)
    obtain ⟨h1, h2⟩ := hab
    simp only [sortLe] at h1
    rw [hka, hkb] at h1
    simp only [jleb, decide_eq_true_eq] at h1
    have hne : kb ≠ ka := by
      intro hc
      exact h2 (by rw [hka, hkb, hc])
    exact ⟨ka, kb, hka, hkb, lt_of_le_of_ne h1 hne⟩
  have hArevr : (sortStage cols .date_asc items).reverse.Pairwise dateGt := by
    rw [List.pairwise_reverse]
    refine (hAle.and hAne).imp_of_mem ?_
    intro a b ha hb hab
    obtain ⟨ka, hka⟩ := Option.isSome_iff_exists.mp (hAsome a ha)
    obtain ⟨kb, hkb⟩ := Option.isSome_iff_exists.mp (hAsome b hb)
    obtain ⟨h1, h2⟩ := hab
    simp only [sortLe] at h1
    rw [hka, hkb] at h1
    simp only [jleb, decide_eq_true_eq] at h1
    have hne : ka ≠ kb := by
      intro hc
      exact h2 (by rw [hka, hkb, hc])
    exact ⟨kb, ka, hkb, hka, lt_of_le_of_ne h1 hne⟩
  have hperm : (sortStage cols .date_desc items).Perm (sortStage cols .date_asc items).reverse :=
    (hDperm.trans hAperm.symm).trans (List.reverse_perm _).symm
  exact List.eq_of_perm_of_sorted hperm hDr hArevr

/-- Sample item with a `dateAdded` string that is not a valid date. -/
def itemU : Item :=
  { id := "u", collectionId := "films", dateAdded := "not-a-date-1", isFavorite := false,
    fieldValues := [] }

/-- Second sample item with a different invalid `dateAdded` string. -/
def itemV : Item :=
  { id := "v", collectionId := "films", dateAdded := "not-a-date-2", isFavorite := false,
    fieldValues := [] }

/-- C8 counterexample: two items with distinct `dateAdded` strings that are
both invalid dates — `getTime()` is `NaN` for each, every date comparison is
a tie (ES `SortCompare` turns a `NaN` comparator value into `+0`), both
stable sorts return the original order, and the two results are not
reversals of each other. -/
theorem c8_counterexample :
    itemU.dateAdded ≠ itemV.dateAdded
    ∧ sortStage [] .date_desc [itemU, itemV] ≠ (sortStage [] .date_asc [itemU, itemV]).reverse := by
  constructor
  · decide
  · decide

/-- C8 witness: on two items with distinct valid dates the two date sorts
are exact reversals. -/
theorem c8_witness :
    sortStage [] .date_desc [itemA, itemB] = (sortStage [] .date_asc [itemA, itemB]).reverse :=
  c8_date_sort_reversal [] [itemA, itemB] (by decide) (by decide)


/-! ## Code-unit string order -/

/-- Characters with equal code points are equal. -/
theorem char_eq_of_toNat {a b : Char} (h : a.toNat = b.toNat) : a = b := by
  have ha := Char.ofNat_toNat a
  have hb := Char.ofNat_toNat b
  rw [← ha, ← hb, h]

/-- `listLtb` is asymmetric. -/
theorem listLtb_asymm : ∀ {l m : List Char}, listLtb l m = true → listLtb m l = false
  | [], [], h => by simp [listLtb] at h
  | [], _ :: _, _ => by simp [listLtb]
  | _ :: _, [], h => by simp [listLtb] at h
  | a :: l, b :: m, h => by
    simp only [listLtb] at h ⊢
    by_cases hab : a.toNat < b.toNat
    · have hba : ¬ b.toNat < a.toNat := by omega
      simp [hba, hab]
    · simp only [hab, if_false] at h
      by_cases hba : b.toNat < a.toNat
      · simp [hba] at h
      · simp only [hba, if_false] at h
        simp [hba, hab, listLtb_asymm h]

/-- Two lists neither of which is `listLtb`-below the other are equal. -/
theorem listLtb_antisymm : ∀ {l m : List Char},
    listLtb l m = false → listLtb m l = false → l = m
  | [], [], _, _ => rfl
  | [], _ :: _, h1, _ => by simp [listLtb] at h1
  | _ :: _, [], _, h2 => by simp [listLtb] at h2
  | a :: l, b :: m, h1, h2 => by
    simp only [listLtb] at h1 h2
    by_cases hab : a.toNat < b.toNat
    · simp [hab] at h1
    · by_cases hba : b.toNat < a.toNat
      · simp [hba] at h2
      · have hchar : a = b := char_eq_of_toNat (by omega)
        simp only [hab, hba, if_false] at h1 h2
        rw [hchar, listLtb_antisymm h1 h2]

/-- `listLtb` is transitive. -/
theorem listLtb_trans : ∀ {l m n : List Char},
    listLtb l m = true → listLtb m n = true → listLtb l n = true
  | [], [], _, h1, _ => by simp [listLtb] at h1
  | [], _ :: _, [], _, h2 => by simp [listLtb] at h2
  | [], _ :: _, _ :: _, _, _ => by simp [listLtb]
  | _ :: _, [], _, h1, _ => by simp [listLtb] at h1
  | _ :: _, _ :: _, [], _, h2 => by simp [listLtb] at h2
  | a :: l, b :: m, c :: n, h1, h2 => by
    simp only [listLtb] at h1 h2 ⊢
    by_cases hab : a.toNat < b.toNat <;> by_cases hbc : b.toNat < c.toNat
    · have hac : a.toNat < c.toNat := lt_trans hab hbc
      simp [hac]
    · by_cases hcb : c.toNat < b.toNat
      · simp [hbc, hcb] at h2
      · have hac : a.toNat < c.toNat := by omega
        simp [hac]
    · by_cases hba : b.toNat < a.toNat
      · simp [hab, hba] at h1
      · have hac : a.toNat < c.toNat := by omega
        simp [hac]
    · by_cases hba : b.toNat < a.toNat
      · simp [hab, hba] at h1
      · by_cases hcb : c.toNat < b.toNat
        · simp [hbc, hcb] at h2
        · simp only [hab, hba, if_false] at h1
          simp only [hbc, hcb, if_false] at h2
          have hac : ¬ a.toNat < c.toNat := by omega
          have hca : ¬ c.toNat < a.toNat := by omega
          simp [hac, hca, listLtb_trans h1 h2]

/-- `strLeb` is total. -/
theorem strLeb_total (x y : String) : strLeb x y = true ∨ strLeb y x = true := by
  by_cases h : strLtb y x = true
  · right
    have hxy : strLtb x y = false := listLtb_asymm h
    unfold strLeb
    rw [hxy]
    rfl
  · left
    simp only [Bool.not_eq_true] at h
    unfold strLeb
    rw [h]
    rfl

/-- `strLeb` is transitive. -/
theorem strLeb_trans {x y z : String}
    (h1 : strLeb x y = true) (h2 : strLeb y z = true) : strLeb x z = true := by
  simp only [strLeb, Bool.not_eq_true'] at h1 h2 ⊢
  by_cases hzx : strLtb z x = true
  · by_cases hxy : strLtb x y = true
    · have hzy : listLtb z.toList y.toList = true := listLtb_trans hzx hxy
      have h2' : listLtb z.toList y.toList = false := h2
      exact absurd (h2'.symm.trans hzy) Bool.false_ne_true
    · simp only [Bool.not_eq_true] at hxy
      have heq : x.toList = y.toList := listLtb_antisymm hxy h1
      have h2' : listLtb z.toList y.toList = false := h2
      show listLtb z.toList x.toList = false
      rw [heq]
      exact h2'
  · simp only [Bool.not_eq_true] at hzx
    exact hzx

/-- `strLeb` is antisymmetric. -/
theorem strLeb_antisymm {x y : String}
    (h1 : strLeb x y = true) (h2 : strLeb y x = true) : x = y := by
  simp only [strLeb, Bool.not_eq_true'] at h1 h2
  exact String.ext (listLtb_antisymm h2 h1)

/-! ## The chip set -/

/-- Membership in `insertUniq`. -/
theorem mem_insertUniq {acc : List String} {s x : String} :
    x ∈ insertUniq acc s ↔ x ∈ acc ∨ x = s := by
  unfold insertUniq
  by_cases h : s ∈ acc
  · simp only [h, if_true]
    constructor
    · exact Or.inl
    · rintro (hx | rfl)
      · exact hx
      · exact h
  · simp [h]

/-- `insertUniq` keeps the accumulated list duplicate-free. -/
theorem nodup_insertUniq {acc : List String} {s : String} (h : acc.Nodup) :
    (insertUniq acc s).Nodup := by
  unfold insertUniq
  by_cases hs : s ∈ acc
  · simpa [hs] using h
  · simp [hs, List.nodup_append, h]

/-- Membership in the `insertUniq` fold. -/
theorem mem_foldl_insertUniq : ∀ (l acc : List String) (x : String),
    x ∈ l.foldl insertUniq acc ↔ x ∈ acc ∨ x ∈ l
  | [], acc, x => by simp
  | s :: t, acc, x => by
    simp only [List.foldl_cons, mem_foldl_insertUniq t, mem_insertUniq, List.mem_cons]
    tauto

/-- The `insertUniq` fold keeps the list duplicate-free. -/
theorem nodup_foldl_insertUniq : ∀ (l acc : List String), acc.Nodup →
    (l.foldl insertUniq acc).Nodup
  | [], _, h => h
  | s :: t, acc, h => by
    simpa using nodup_foldl_insertUniq t (insertUniq acc s) (nodup_insertUniq h)

/-- An element is a collected chip exactly when some item contributes it. -/
theorem mem_collectChips {cols : List Collection} {items : List Item} {st : String} :
    st ∈ collectChips cols items ↔ ∃ i ∈ items, statusChip cols i = some st := by
  unfold collectChips
  rw [mem_foldl_insertUniq]
  simp [List.mem_filterMap]

/-- The collected chip list is duplicate-free. -/
theorem nodup_collectChips (cols : List Collection) (items : List Item) :
    (collectChips cols items).Nodup :=
  nodup_foldl_insertUniq _ _ List.nodup_nil

/-- Collecting chips from a permuted item list permutes the chips. -/
theorem collectChips_perm {cols : List Collection} {l1 l2 : List Item}
    (h : l1.Perm l2) : (collectChips cols l1).Perm (collectChips cols l2) := by
  refine (List.perm_ext_iff_of_nodup (nodup_collectChips cols l1)
    (nodup_collectChips cols l2)).mpr ?_
  intro st
  rw [mem_collectChips, mem_collectChips]
  constructor
  · rintro ⟨i, hi, hc⟩
    exact ⟨i, h.subset hi, hc⟩
  · rintro ⟨i, hi, hc⟩
    exact ⟨i, h.symm.subset hi, hc⟩

/-- Lexicographically sorting two permuted string lists gives the same
list. -/
theorem jsSort_strLeb_eq_of_perm {l1 l2 : List String} (h : l1.Perm l2) :
    jsSort strLeb l1 = jsSort strLeb l2 := by
  haveI : IsAntisymm String (fun a b => strLeb a b = true) :=
    ⟨fun _ _ => strLeb_antisymm⟩
  have hs1 : (jsSort strLeb l1).Pairwise (fun a b => strLeb a b = true) :=
    pairwise_jsSort (fun x _ y _ => strLeb_total x y)
      (fun x _ y _ z _ => strLeb_trans)
  have hs2 : (jsSort strLeb l2).Pairwise (fun a b => strLeb a b = true) :=
    pairwise_jsSort (fun x _ y _ => strLeb_total x y)
      (fun x _ y _ z _ => strLeb_trans)
  exact List.eq_of_perm_of_sorted
    ((jsSort_perm _ l1).trans (h.trans (jsSort_perm _ l2).symm)) hs1 hs2

/-! ## Claim C2 -/

/-- C2 counterexample: with the status filter `\x7bWatched\x7d` active on the
sample state, the code derives the chips from the attribute-filtered list
(`filteredItems`), giving only `["Watched"]`, whereas the claim's
derivation from the view- and search-narrowed (but not attribute-filtered)
set gives `["To Watch", "Watched"]`. -/
theorem c2_counterexample :
    availableStatuses stFilms "all" "" ⟨false, ["Watched"]⟩ .date_desc
      ≠ availableStatusesSpec stFilms "all" ""
    ∧ availableStatuses stFilms "all" "" ⟨false, ["Watched"]⟩ .date_desc = ["Watched"]
    ∧ availableStatusesSpec stFilms "all" "" = ["To Watch", "Watched"] := by
  refine ⟨by decide, by decide, by decide⟩

/-- C2 (amended): `availableStatuses` is always deduplicated and sorted
lexicographically, and it is derived from the fully filtered and sorted
list; whenever no attribute filter is active this coincides with the
derivation from the view- and search-narrowed set, as the spec describes —
but an active attribute filter narrows the offered chips too. -/
theorem c2_availableStatuses (s : AppState) (activeView q : String)
    (fo : FilterOptions) (so : SortOption) :
    (availableStatuses s activeView q fo so).Pairwise (fun a b => strLeb a b = true)
    ∧ (availableStatuses s activeView q fo so).Nodup
    ∧ (fo = ⟨false, []⟩ →
        availableStatuses s activeView q fo so = availableStatusesSpec s activeView q) := by
  refine ⟨?_, ?_, ?_⟩
  · exact pairwise_jsSort (fun x _ y _ => strLeb_total x y)
      (fun x _ y _ z _ => strLeb_trans)
  · exact ((jsSort_perm strLeb _).symm.nodup)
      (nodup_collectChips s.collections (filteredItems s activeView q fo so))
  · rintro rfl
    unfold availableStatuses availableStatusesSpec
    apply jsSort_strLeb_eq_of_perm
    apply collectChips_perm
    have hattr : attrStage s.collections ⟨false, []⟩
        (searchStage q (viewStage activeView s.items))
        = searchStage q (viewStage activeView s.items) := rfl
    unfold filteredItems
    rw [hattr]
    exact jsSort_perm _ _

/-- C2 witness: with no active attribute filter on the sample state the two
derivations coincide, and the result is duplicate-free. -/
theorem c2_witness :
    (availableStatuses stFilms "all" "" ⟨false, []⟩ .date_desc).Nodup
    ∧ availableStatuses stFilms "all" "" ⟨false, []⟩ .date_desc
        = availableStatusesSpec stFilms "all" "" := by
  have h := c2_availableStatuses stFilms "all" "" ⟨false, []⟩ .date_desc
  exact ⟨h.2.1, h.2.2 rfl⟩


/-! ## Claim C3: itemIds consistency -/

/-- Under unique store keys, deleting a collection's item keys removes
exactly the items owned by that collection. -/
theorem deleteCollection_items (s : AppState) (cid : String)
    (hnd : (s.items.map Item.id).Nodup) :
    (handleDeleteCollection s cid).items
      = s.items.filter (fun it => !(it.collectionId == cid)) := by
  show s.items.filter
      (fun it => !(((s.items.filter (fun j => j.collectionId == cid)).map Item.id).contains it.id))
      = s.items.filter (fun it => !(it.collectionId == cid))
  apply List.filter_congr
  intro x hx
  have hiff : ((s.items.filter (fun j => j.collectionId == cid)).map Item.id).contains x.id = true
      ↔ (x.collectionId == cid) = true := by
    rw [List.elem_iff]
    constructor
    · intro hmemb
      rcases List.mem_map.mp hmemb with ⟨j, hj, hjid⟩
      rcases List.mem_filter.mp hj with ⟨hjmem, hjc⟩
      have hje : j = x := List.inj_on_of_nodup_map hnd hjmem hx hjid
      subst hje
      exact hjc
    · intro hcx
      exact List.mem_map_of_mem Item.id (List.mem_filter.mpr ⟨hx, hcx⟩)
  cases hcontains : ((s.items.filter (fun j => j.collectionId == cid)).map Item.id).contains x.id
  · cases hcol : (x.collectionId == cid)
    · rfl
    · exact absurd (hiff.mpr hcol) (by rw [hcontains]; exact Bool.false_ne_true)
  · rw [hiff.mp hcontains]

/-- The mutation operations of claim C3. -/
inductive Op where
  | createItem (it : Item)
  | deleteItem (id : String)
  | deleteCollection (id : String)
deriving DecidableEq, Repr

/-- Apply one operation (`handleSaveItem` on a fresh id is a creation). -/
def applyOp (s : AppState) : Op → AppState
  | .createItem it => handleSaveItem s it
  | .deleteItem i => handleDeleteItem s i
  | .deleteCollection i => handleDeleteCollection s i

/-- Apply a sequence of operations, first element first. -/
def applyOps (s : AppState) : List Op → AppState
  | [] => s
  | op :: rest => applyOps (applyOp s op) rest

/-- `handleSaveItem` is a *creation* only when its id is fresh — with an
existing id it is an edit, which claim C3 excludes.  Deletions are
unrestricted (absent ids are no-ops). -/
def FreshAt (s : AppState) : Op → Prop
  | .createItem it => ∀ j ∈ s.items, j.id ≠ it.id
  | .deleteItem _ => True
  | .deleteCollection _ => True

/-- Every create in the trace happens while its id is fresh. -/
def OkTrace : AppState → List Op → Prop
  | _, [] => True
  | s, op :: rest => FreshAt s op ∧ OkTrace (applyOp s op) rest

/-- The `itemIds` consistency invariant: the store's keys are unique (as in
any JavaScript object), and every collection's `itemIds` lists exactly the
ids of the store's items with that `collectionId`, most recently created
first (the store is insertion-ordered, oldest first). -/
def Consistent (s : AppState) : Prop :=
  (s.items.map Item.id).Nodup
  ∧ ∀ c ∈ s.collections,
      c.itemIds = ((s.items.filter (fun it => it.collectionId == c.id)).map Item.id).reverse

/-- A fresh save appends the item to the store and prepends its id to the
matching collections. -/
theorem handleSaveItem_fresh_eq {s : AppState} {it : Item}
    (hany : s.items.any (fun j => j.id == it.id) = false) :
    handleSaveItem s it = { s with
      items := s.items ++ [it],
      collections := s.collections.map (fun c =>
        if c.id == it.collectionId then { c with itemIds := it.id :: c.itemIds } else c) } := by
  unfold handleSaveItem upsert
  rw [hany]
  simp

/-- Creation of a fresh item preserves the invariant. -/
theorem consistent_saveItem_fresh {s : AppState} {it : Item}
    (hc : Consistent s) (hf : ∀ j ∈ s.items, j.id ≠ it.id) :
    Consistent (handleSaveItem s it) := by
  obtain ⟨hnd, hinv⟩ := hc
  have hany : s.items.any (fun j => j.id == it.id) = false := by
    rw [List.any_eq_false]
    intro j hj
    simpa using hf j hj
  rw [handleSaveItem_fresh_eq hany]
  constructor
  · simp only [List.map_append, List.map_cons, List.map_nil]
    rw [List.nodup_append]
    refine ⟨hnd, by simp, ?_⟩
    intro x hx hx2
    simp only [List.mem_singleton] at hx2
    rcases List.mem_map.mp hx with ⟨j, hj, rfl⟩
    exact hf j hj hx2
  · intro c hcm
    rcases List.mem_map.mp hcm with ⟨c0, hc0, rfl⟩
    by_cases hcc : (c0.id == it.collectionId) = true
    · simp only [hcc, if_true]
      show it.id :: c0.itemIds
          = (((s.items ++ [it]).filter (fun x => x.collectionId == c0.id)).map Item.id).reverse
      rw [List.filter_append]
      have hone : [it].filter (fun x => x.collectionId == c0.id) = [it] := by
        have hcid : (it.collectionId == c0.id) = true := by
          rw [beq_iff_eq] at hcc ⊢
          exact hcc.symm
        simp [hcid]
      rw [hone, List.map_append, List.reverse_append]
      rw [hinv c0 hc0]
      simp
    · have hcc2 : (c0.id == it.collectionId) = false := by
        simpa using hcc
      simp only [hcc2, Bool.false_eq_true, if_false]
      show c0.itemIds
          = (((s.items ++ [it]).filter (fun x => x.collectionId == c0.id)).map Item.id).reverse
      rw [List.filter_append]
      have hone : [it].filter (fun x => x.collectionId == c0.id) = [] := by
        have hcid : (it.collectionId == c0.id) = false := by
          rw [beq_eq_false_iff_ne] at hcc2 ⊢
          exact hcc2.symm
        simp [hcid]
      rw [hone, List.append_nil]
      exact hinv c0 hc0


/-- Deleting an item preserves the invariant. -/
theorem consistent_deleteItem {s : AppState} (i : String) (hc : Consistent s) :
    Consistent (handleDeleteItem s i) := by
  obtain ⟨hnd, hinv⟩ := hc
  cases hf : s.items.find? (fun j => j.id == i) with
  | none =>
    unfold handleDeleteItem
    rw [hf]
    exact ⟨hnd, hinv⟩
  | some it0 =>
    have h0mem := List.mem_of_find?_eq_some hf
    have h0id : it0.id = i := by simpa using List.find?_some hf
    unfold handleDeleteItem
    rw [hf]
    constructor
    · exact List.Nodup.sublist ((List.filter_sublist s.items).map Item.id) hnd
    · intro c hcm
      rcases List.mem_map.mp hcm with ⟨c0, hc0, rfl⟩
      by_cases hcc : (c0.id == it0.collectionId) = true
      · simp only [hcc, if_true]
        show c0.itemIds.filter (fun x => !(x == i))
            = (((s.items.filter (fun j => !(j.id == i))).filter
                (fun x => x.collectionId == c0.id)).map Item.id).reverse
        rw [hinv c0 hc0]
        rw [List.filter_reverse, List.filter_map]
        congr 1
        rw [List.filter_filter, List.filter_filter]
        congr 1
        apply List.filter_congr
        intro a _
        simp only [Function.comp_apply]
        rw [Bool.and_comm]
      · have hcc2 : (c0.id == it0.collectionId) = false := by
          simpa using hcc
        simp only [hcc2, Bool.false_eq_true, if_false]
        show c0.itemIds
            = (((s.items.filter (fun j => !(j.id == i))).filter
                (fun x => x.collectionId == c0.id)).map Item.id).reverse
        rw [hinv c0 hc0]
        have hsame : (s.items.filter (fun j => !(j.id == i))).filter
              (fun x => x.collectionId == c0.id)
            = s.items.filter (fun x => x.collectionId == c0.id) := by
          rw [List.filter_filter]
          apply List.filter_congr
          intro x hx
          by_cases hxc : (x.collectionId == c0.id) = true
          · have hxid : (x.id == i) = false := by
              cases hxi2 : (x.id == i) with
              | false => rfl
              | true =>
                exfalso
                have hxi : x.id = i := by simpa using hxi2
                have hx0 : x = it0 :=
                  List.inj_on_of_nodup_map hnd hx h0mem (by rw [hxi, h0id])
                subst hx0
                have h1 : x.collectionId = c0.id := by simpa using hxc
                rw [beq_eq_false_iff_ne] at hcc2
                exact hcc2 h1.symm
            simp [hxc, hxid]
          · have hxc2 : (x.collectionId == c0.id) = false := by simpa using hxc
            simp [hxc2]
        rw [hsame]

/-- Deleting a collection preserves the invariant. -/
theorem consistent_deleteCollection {s : AppState} (cid : String) (hc : Consistent s) :
    Consistent (handleDeleteCollection s cid) := by
  obtain ⟨hnd, hinv⟩ := hc
  have hitems := deleteCollection_items s cid hnd
  constructor
  · rw [hitems]
    exact List.Nodup.sublist ((List.filter_sublist s.items).map Item.id) hnd
  · intro c hcm
    have hcm2 : c ∈ s.collections.filter (fun c2 => !(c2.id == cid)) := hcm
    rcases List.mem_filter.mp hcm2 with ⟨hc0, hcne⟩
    show c.itemIds = ((((handleDeleteCollection s cid).items).filter
        (fun x => x.collectionId == c.id)).map Item.id).reverse
    rw [hitems, hinv c hc0]
    have hsame : (s.items.filter (fun it => !(it.collectionId == cid))).filter
          (fun x => x.collectionId == c.id)
        = s.items.filter (fun x => x.collectionId == c.id) := by
      rw [List.filter_filter]
      apply List.filter_congr
      intro x hx
      by_cases hxc : (x.collectionId == c.id) = true
      · have hnc : (x.collectionId == cid) = false := by
          rw [beq_iff_eq] at hxc
          rw [hxc]
          simpa using hcne
        simp [hxc, hnc]
      · have hxc2 : (x.collectionId == c.id) = false := by simpa using hxc
        simp [hxc2]
    rw [hsame]

/-- C3: after any sequence of item creations (with fresh ids — a save to an
existing id is an edit, excluded by the claim), item deletions and
collection deletions applied to a consistent state, every remaining
collection's `itemIds` is exactly the set of store item ids owning it,
ordered most recently created first. -/
theorem c3_itemIds_consistency (s : AppState) (ops : List Op)
    (hc : Consistent s) (ht : OkTrace s ops) : Consistent (applyOps s ops) := by
  induction ops generalizing s with
  | nil => exact hc
  | cons op rest ih =>
    obtain ⟨hfresh, htrest⟩ := ht
    refine ih (applyOp s op) ?_ htrest
    cases op with
    | createItem it => exact consistent_saveItem_fresh hc hfresh
    | deleteItem i => exact consistent_deleteItem i hc
    | deleteCollection i => exact consistent_deleteCollection i hc

/-- Sample fresh item used by the C3 witness trace. -/
def itemC3 : Item :=
  { id := "c", collectionId := "films", dateAdded := "2024-04-01T00:00:00Z", isFavorite := false,
    fieldValues := [("f1", .vstr "Oppenheimer")] }

/-- C3 witness: a concrete trace — create a fresh item, delete item "a",
delete the whole collection — keeps the sample state consistent. -/
theorem c3_witness :
    Consistent (applyOps stFilms
      [.createItem itemC3, .deleteItem "a", .deleteCollection "films"]) := by
  apply c3_itemIds_consistency
  · exact ⟨by decide, by decide⟩
  · exact ⟨(by decide : ∀ j ∈ stFilms.items, j.id ≠ itemC3.id),
      True.intro, True.intro, True.intro⟩

end Shelf
